import Mathlib

/-!
# log-analyzer: the log lifecycle collector and its document-store gateway

A shallow embedding of `internal/collector/collector.go`, `pkg/es/client.go` and
`pkg/model/*.go`.

* Go values of type `interface{}` obtained from `encoding/json` are the trees of `JSON`;
  a `map[string]interface{}` is an association list (`Doc`) read by first binding.
  JSON numbers (Go `float64`) are carried as integers; no definition below computes with them.
* A Go `error` result is `Option Error`, a `(value, error)` result is `Except Error value`.
  A nil slice and an empty slice are both the empty list.
* The Elasticsearch server and the `go-elasticsearch` transport are not part of the
  repository; they appear as the record `ElasticClient` of request functions over an explicit
  backend state, with one reference instance `Backend.client`.
* `time.Time` values are instants; their RFC 3339 text form is supplied by a `TimeCodec`.
* The `context.Context` argument of every method is left out: no definition below reads it.
-/

namespace LogAnalyzer

/-! ## JSON values and Go maps -/

/-- Decoded JSON value (`interface{}` as produced by `encoding/json`). -/
inductive JSON where
  | null
  | bool (b : Bool)
  | num (n : Int)
  | str (s : String)
  | arr (xs : List JSON)
  | obj (kvs : List (String × JSON))

/-- Go `map[string]interface{}`: the first binding of a key is the value of the map there. -/
abbrev Doc := List (String × JSON)

/-- Map read `m[k]` in the two-result form `v, found := m[k]`. -/
def Doc.get : Doc → String → Option JSON
  | [], _ => none
  | (k', v) :: t, k => if k' = k then some v else Doc.get t k

/-- Map write `m[k] = v`. -/
def Doc.set : Doc → String → JSON → Doc
  | [], k, v => [(k, v)]
  | (k', v') :: t, k, v => if k' = k then (k, v) :: t else (k', v') :: Doc.set t k v

/-- Type assertion `x.(map[string]interface{})` on the result of a map read. -/
def asObject : Option JSON → Option Doc
  | some (JSON.obj kvs) => some kvs
  | _ => none

/-- Type assertion `x.(string)` on the result of a map read. -/
def asString : Option JSON → Option String
  | some (JSON.str s) => some s
  | _ => none

/-! ## Errors -/

/-- Go `error` values that occur in the two packages. -/
inductive Error where
  -- an error handed back by the go-elasticsearch client (the request was not performed)
  | transport (msg : String)
  -- an error of json.NewDecoder(..).Decode
  | decode (msg : String)
  -- the value of errors.New(msg)
  | new (msg : String)
  -- the value of fmt.Errorf(msg + "%v", payload): the payload is formatted, nothing is wrapped
  | errorf (msg : String) (payload : Doc)
  -- the value of fmt.Errorf(msg + ": %w", cause)
  | wrap (msg : String) (cause : Error)

/-- Go `errors.Unwrap`. -/
def Error.Unwrap : Error → Option Error
  | Error.wrap _ cause => some cause
  | _ => none

/-! ## The Elasticsearch transport -/

/-- Go `esapi.Response`: status code and body; `Body = none` is a body that is not JSON text. -/
structure Response where
  StatusCode : Nat
  Body : Option JSON

/-- Go `(*esapi.Response).IsError`: the status code is above 299. -/
def Response.IsError (r : Response) : Bool := decide (r.StatusCode > 299)

/-- The request functions of `*elasticsearch.Client` used by `ESClient`, over a backend state `σ`.
`Search` and `Get` read the state, `Update` may change it. -/
structure ElasticClient (σ : Type) where
  Search : σ → String → JSON → Int → Except Error Response
  Get : σ → String → String → Except Error Response
  Update : σ → String → String → JSON → Except Error Response × σ

/-- Go `json.NewDecoder(body).Decode(&r)` for `var r map[string]interface{}`: an object decodes to
its map, `null` leaves the map nil, every other body is an error. -/
def decodeObject : Option JSON → Except Error Doc
  | some (JSON.obj kvs) => Except.ok kvs
  | some JSON.null => Except.ok []
  | some _ => Except.error (Error.decode "json: cannot unmarshal into Go value of type map")
  | none => Except.error (Error.decode "invalid character")

/-! ## `pkg/es`: `ESClient` -/

/-- Go `ESClient`: it holds the `*elasticsearch.Client`. -/
structure ESClient (σ : Type) where
  Client : ElasticClient σ

/-- The query `ESClient.Search` substitutes for a nil query. -/
def matchAllQuery : Doc := [("query", JSON.obj [("match_all", JSON.obj [])])]

/-- One iteration of the loop `for _, hit := range hitsHist` of `ESClient.Search`. -/
def searchStep (result : List Doc) (hit : JSON) : List Doc :=
  match asObject (some hit) with
  | none => result
  | some hitMap =>
    match asObject (hitMap.get "_source") with
    | none => result
    | some source =>
      let source := match hitMap.get "_id" with
        | some id => source.set "_id" id
        | none => source
      result ++ [source]

/-- Go `(*ESClient).Search`. Go ranges over the map `hitsHist` in an order the runtime picks;
a map is given here as an association list, and the order of that list stands for the order
picked, so that a statement for every list is a statement for every order. -/
def ESClient.Search {σ : Type} (e : ESClient σ) (s : σ) (index : String) (query : Option Doc)
    (size : Int) : Except Error (List Doc) :=
  let query := match query with
    | none => matchAllQuery
    | some q => q
  let size := if size < 0 then 10 else size
  match e.Client.Search s index (JSON.obj query) size with
  | Except.error err => Except.error err
  | Except.ok response =>
    if response.IsError then
      match decodeObject response.Body with
      | Except.error err => Except.error err
      | Except.ok e => Except.error (Error.errorf "查询失败:" e)
    else
      match decodeObject response.Body with
      | Except.error err => Except.error err
      | Except.ok r =>
        match asObject (r.get "hits") with
        | none => Except.ok []
        | some hits =>
          match asObject (hits.get "hits") with
          | none => Except.ok []
          | some hitsHist => Except.ok ((hitsHist.map Prod.snd).foldl searchStep [])

/-- Go `(*ESClient).GetByID`. -/
def ESClient.GetByID {σ : Type} (e : ESClient σ) (s : σ) (index : String) (ID : String) :
    Except Error Doc :=
  match e.Client.Get s index ID with
  | Except.error err => Except.error err
  | Except.ok resp =>
    if resp.StatusCode = 404 then Except.error (Error.new "document not found")
    else if resp.IsError then
      match decodeObject resp.Body with
      | Except.error err => Except.error err
      | Except.ok e => Except.error (Error.errorf "elasticsearch error: " e)
    else
      match decodeObject resp.Body with
      | Except.error err => Except.error err
      | Except.ok r =>
        match asObject (r.get "_resource") with
        | none => Except.error (Error.new "_source not found in response")
        | some source => Except.ok (source.set "_id" ((r.get "_id").getD JSON.null))

/-- Go `(*ESClient).Update`; `document` is the JSON form of the Go value passed in. -/
def ESClient.Update {σ : Type} (e : ESClient σ) (s : σ) (index : String) (ID : String)
    (document : JSON) : Option Error × σ :=
  let updateDoc : Doc := [("doc", document)]
  match e.Client.Update s index ID (JSON.obj updateDoc) with
  | (Except.error err, s') => (some err, s')
  | (Except.ok resp, s') =>
    if resp.IsError then
      match decodeObject resp.Body with
      | Except.error err => (some err, s')
      | Except.ok e => (some (Error.errorf "elasticsearch error: " e), s')
    else (none, s')

/-! ## `pkg/model` -/

/-- Go `time.Time`, identified with its instant in Unix nanoseconds. -/
structure Time where
  unixNano : Int
  deriving DecidableEq

/-- The zero value `time.Time{}` (January 1 of year 1, UTC). -/
def Time.zero : Time := ⟨-62135596800000000000⟩

/-- The RFC 3339 text form of `time.Time`, as used by `Time.MarshalJSON` and
`Time.UnmarshalJSON` on JSON strings. -/
structure TimeCodec where
  format : Time → String
  parse : String → Option Time

/-- Go `model.DefaultBatchSize`. -/
def DefaultBatchSize : Int := 30

/-- Go `model.MaxBatchSize`. -/
def MaxBatchSize : Int := 100

/-- Go `model.UnProcessedLog`; the JSON tags are `id`, `timestamp`, `raw_log`, `source`,
`log_type`, `index_name`, `process`, `process_stamp`, `analysis_id`. -/
structure UnProcessedLog where
  ID : String
  Timestamp : Time
  RawLog : String
  Source : String
  LogType : String
  IndexName : String
  Processed : Bool
  ProcessStamp : Option Time
  AnalysisID : Option String
  deriving DecidableEq

/-! ### `json.Marshal` of a map followed by `json.Unmarshal` into `UnProcessedLog`

`json.Marshal` writes the keys of a map in sorted order. `json.Unmarshal` then visits the
keys in that order; a key is stored into the struct field whose tag equals it or, failing that,
equals it under Unicode simple case folding. Keys that match no tag are skipped. A value
of the wrong kind makes `Unmarshal` return an error. -/

/-- Order of two keys as compared by `json.Marshal` (code points, lexicographic). -/
def keyLt : List Char → List Char → Bool
  | [], [] => false
  | [], _ :: _ => true
  | _ :: _, [] => false
  | a :: as, b :: bs => if a.toNat < b.toNat then true else if a.toNat = b.toNat then keyLt as bs else false

/-- Insertion of one binding into a key-sorted list. -/
def insertKey (kv : String × JSON) : Doc → Doc
  | [] => [kv]
  | kv' :: t => if keyLt kv.1.data kv'.1.data then kv :: kv' :: t else kv' :: insertKey kv t

/-- The bindings of a map: shadowed bindings of the association list are removed. -/
def dedupKeys : Doc → Doc
  | [] => []
  | (k, v) :: t => (k, v) :: (dedupKeys t).filter (fun kv => decide (kv.1 ≠ k))

/-- The bindings of a map in the order `json.Marshal` writes them. -/
def sortKeys (m : Doc) : Doc := (dedupKeys m).foldr insertKey []

/-- Go `foldRune` of `encoding/json` on one rune of a key, as a code point: an ASCII letter
goes to its upper case and any other rune to the least rune of its simple-fold orbit. The only
runes outside ASCII whose orbit holds an ASCII rune are U+017F (long s, with `S`) and U+212A
(Kelvin sign, with `K`). Every other rune is kept: its fold is outside ASCII as it is itself,
so the comparison with a tag, which is ASCII, is the one Go makes. -/
def foldRune (c : Char) : Nat :=
  if 97 ≤ c.toNat ∧ c.toNat ≤ 122 then c.toNat - 32
  else if c.toNat = 383 then 83
  else if c.toNat = 8490 then 75
  else c.toNat

/-- Whether a JSON key is stored into the struct field tagged `tag`: the key is the tag, or
equals it under `foldName` (Unicode simple folding). The tags of `UnProcessedLog` are ASCII. -/
def keyMatches (tag key : String) : Bool :=
  decide (key = tag) || decide (key.data.map foldRune = tag.data.map foldRune)

/-- The values `json.Unmarshal` stores, in order, into the field tagged `tag`. -/
def fieldValues (tag : String) (m : Doc) : List JSON :=
  ((sortKeys m).filter (fun kv => keyMatches tag kv.1)).map Prod.snd

/-- Storing a JSON value into a `string` field; `none` is an `UnmarshalTypeError`. -/
def storeString (cur : String) : JSON → Option String
  | JSON.str s => some s
  | JSON.null => some cur
  | _ => none

/-- Storing a JSON value into a `bool` field. -/
def storeBool (cur : Bool) : JSON → Option Bool
  | JSON.bool b => some b
  | JSON.null => some cur
  | _ => none

/-- Storing a JSON value into a `time.Time` field (`Time.UnmarshalJSON`). -/
def storeTime (tc : TimeCodec) (cur : Time) : JSON → Option Time
  | JSON.str s => tc.parse s
  | JSON.null => some cur
  | _ => none

/-- Storing a JSON value into a `*time.Time` field. -/
def storeTimePtr (tc : TimeCodec) (_cur : Option Time) : JSON → Option (Option Time)
  | JSON.str s => (tc.parse s).map some
  | JSON.null => some none
  | _ => none

/-- Storing a JSON value into a `*string` field. -/
def storeStringPtr (_cur : Option String) : JSON → Option (Option String)
  | JSON.str s => some (some s)
  | JSON.null => some none
  | _ => none

/-- Go `json.Marshal(m)` followed by `json.Unmarshal(resultBytes, &log)` for a zero
`var log model.UnProcessedLog`; `none` when `Unmarshal` returns an error. -/
def decodeUnProcessedLog (tc : TimeCodec) (m : Doc) : Option UnProcessedLog := do
  let id ← (fieldValues "id" m).foldlM storeString ""
  let timestamp ← (fieldValues "timestamp" m).foldlM (storeTime tc) Time.zero
  let rawLog ← (fieldValues "raw_log" m).foldlM storeString ""
  let source ← (fieldValues "source" m).foldlM storeString ""
  let logType ← (fieldValues "log_type" m).foldlM storeString ""
  let indexName ← (fieldValues "index_name" m).foldlM storeString ""
  let processed ← (fieldValues "process" m).foldlM storeBool false
  let processStamp ← (fieldValues "process_stamp" m).foldlM (storeTimePtr tc) none
  let analysisID ← (fieldValues "analysis_id" m).foldlM storeStringPtr none
  pure { ID := id, Timestamp := timestamp, RawLog := rawLog, Source := source,
         LogType := logType, IndexName := indexName, Processed := processed,
         ProcessStamp := processStamp, AnalysisID := analysisID }

/-! ### What `json.Unmarshal` accepts and leaves, stated per field

A second account of the decoding, by field and not by key visited, to compare
`decodeUnProcessedLog` with. -/

/-- The Go types of the fields of `UnProcessedLog`. -/
inductive GoType where
  | string
  | bool
  | time
  | timePtr
  | stringPtr

/-- The JSON tag and the Go type of each field of `UnProcessedLog`, as declared in
`pkg/model/logs.go`. -/
def unProcessedLogFields : List (String × GoType) :=
  [("id", GoType.string), ("timestamp", GoType.time), ("raw_log", GoType.string),
   ("source", GoType.string), ("log_type", GoType.string), ("index_name", GoType.string),
   ("process", GoType.bool), ("process_stamp", GoType.timePtr),
   ("analysis_id", GoType.stringPtr)]

/-- Whether `json.Unmarshal` stores a JSON value into a field of a Go type without error:
`null` into every field, a string into `string` and `*string`, a boolean into `bool`, a string
that is the text of an instant into `time.Time` and `*time.Time`, and nothing else. -/
def accepts (tc : TimeCodec) : GoType → JSON → Bool
  | _, JSON.null => true
  | GoType.string, JSON.str _ => true
  | GoType.stringPtr, JSON.str _ => true
  | GoType.bool, JSON.bool _ => true
  | GoType.time, JSON.str s => (tc.parse s).isSome
  | GoType.timePtr, JSON.str s => (tc.parse s).isSome
  | _, _ => false

/-- Whether a document decodes as `UnProcessedLog`: for every field, every key of the document
that matches the field's tag has a value the field accepts. -/
def decodable (tc : TimeCodec) (m : Doc) : Bool :=
  unProcessedLogFields.all (fun ft =>
    (dedupKeys m).all (fun kv => !keyMatches ft.1 kv.1 || accepts tc ft.2 kv.2))

/-- The last value of a list that is not `null`. -/
def lastNonNull : List JSON → Option JSON
  | [] => none
  | v :: vs =>
    match lastNonNull vs with
    | some w => some w
    | none =>
      match v with
      | JSON.null => none
      | _ => some v

/-- The record a decodable document decodes to. A field that is not a pointer holds the last
value among its matching keys that is not `null`, or its zero value when there is none; a
pointer field holds the value of its last matching key, and nil when that is `null` or there
is no such key. -/
def decodedRecord (tc : TimeCodec) (m : Doc) : UnProcessedLog :=
  { ID := match lastNonNull (fieldValues "id" m) with
      | some (JSON.str s) => s
      | _ => "",
    Timestamp := match lastNonNull (fieldValues "timestamp" m) with
      | some (JSON.str s) => (tc.parse s).getD Time.zero
      | _ => Time.zero,
    RawLog := match lastNonNull (fieldValues "raw_log" m) with
      | some (JSON.str s) => s
      | _ => "",
    Source := match lastNonNull (fieldValues "source" m) with
      | some (JSON.str s) => s
      | _ => "",
    LogType := match lastNonNull (fieldValues "log_type" m) with
      | some (JSON.str s) => s
      | _ => "",
    IndexName := match lastNonNull (fieldValues "index_name" m) with
      | some (JSON.str s) => s
      | _ => "",
    Processed := match lastNonNull (fieldValues "process" m) with
      | some (JSON.bool b) => b
      | _ => false,
    ProcessStamp := match (fieldValues "process_stamp" m).getLast? with
      | some (JSON.str s) => tc.parse s
      | _ => none,
    AnalysisID := match (fieldValues "analysis_id" m).getLast? with
      | some (JSON.str s) => some s
      | _ => none }

/-- The record `FetchUnprocessedLogs` is to return for one document of the search result:
none when the document does not decode, else the decoded record, with the document's `_id` as
its `ID` when that is a string. -/
def expectedRecord (tc : TimeCodec) (m : Doc) : Option UnProcessedLog :=
  if decodable tc m then
    some (match m.get "_id" with
      | some (JSON.str id) => { decodedRecord tc m with ID := id }
      | _ => decodedRecord tc m)
  else none

/-! ## `internal/collector` -/

/-- Go interface `es.Client`, restricted to the methods the collector calls, over a gateway
state `σ`. `Update` receives the JSON form of its `document` argument. -/
structure Client (σ : Type) where
  Search : σ → String → Option Doc → Int → Except Error (List Doc)
  Update : σ → String → String → JSON → Option Error × σ

/-- Go `ESCollector`. -/
structure ESCollector (σ : Type) where
  esClient : Client σ
  indexName : String

/-- The `query` map literal of `FetchUnprocessedLogs`. -/
def fetchQuery : Doc :=
  [("query", JSON.obj
      [("bool", JSON.obj
          [("must", JSON.arr [JSON.obj [("term", JSON.obj [("processed", JSON.bool false)])]]),
           ("must_not", JSON.arr
              [JSON.obj [("exists", JSON.obj [("field", JSON.str "processing_timestamp")])]])])]),
   ("sort", JSON.arr [JSON.obj [("timestamp", JSON.obj [("order", JSON.str "desc")])]])]

/-- The adjustment of `batchSize` made before the search is issued. -/
def normalizeBatchSize (batchSize : Int) : Int :=
  if batchSize ≤ 0 then DefaultBatchSize
  else if batchSize > MaxBatchSize then MaxBatchSize
  else batchSize

/-- The statement `if id, ok := m["_id"].(string); ok { log.ID = id }`. -/
def assignID (m : Doc) (log : UnProcessedLog) : UnProcessedLog :=
  match asString (m.get "_id") with
  | some id => { log with ID := id }
  | none => log

/-- One iteration of the loop `for _, m := range result` of `FetchUnprocessedLogs`. -/
def fetchStep (tc : TimeCodec) (logs : List UnProcessedLog) (m : Doc) : List UnProcessedLog :=
  match decodeUnProcessedLog tc m with
  | none => logs
  | some log => logs ++ [assignID m log]

/-- Go `(*ESCollector).FetchUnprocessedLogs`. -/
def ESCollector.FetchUnprocessedLogs {σ : Type} (e : ESCollector σ) (tc : TimeCodec) (s : σ)
    (batchSize : Int) : Except Error (List UnProcessedLog) :=
  let query := fetchQuery
  let batchSize := normalizeBatchSize batchSize
  match e.esClient.Search s e.indexName (some query) batchSize with
  | Except.error err => Except.error err
  | Except.ok result => Except.ok (result.foldl (fetchStep tc) [])

/-- Go `(*ESCollector).UpdateLogProcessStatus`; `now` is the value of `time.Now()`. -/
def ESCollector.UpdateLogProcessStatus {σ : Type} (e : ESCollector σ) (tc : TimeCodec)
    (now : Time) (s : σ) (logID : String) : Option Error × σ :=
  let update : Doc := [("processing_timestamp", JSON.str (tc.format now))]
  match e.esClient.Update s e.indexName logID (JSON.obj update) with
  | (some err, s') => (some (Error.wrap "failed to mark log as processing" err), s')
  | (none, s') => (none, s')

/-- Go `(*ESCollector).UpdateLogAnalysisStatus`. -/
def ESCollector.UpdateLogAnalysisStatus {σ : Type} (e : ESCollector σ) (s : σ)
    (logID : String) (analysisID : String) : Option Error × σ :=
  let update : Doc := [("analysis_id", JSON.str analysisID), ("processed", JSON.str "true")]
  match e.esClient.Update s e.indexName logID (JSON.obj update) with
  | (some err, s') => (some (Error.wrap "failed to update log with analysis" err), s')
  | (none, s') => (none, s')

/-- Go `*ESClient` used as an `es.Client`. -/
def ESClient.toClient {σ : Type} (e : ESClient σ) : LogAnalyzer.Client σ :=
  { Search := e.Search, Update := e.Update }

/-! ## Reference document store

The environment of the two packages: one index of an Elasticsearch-like store, holding
documents by identifier. It answers the search, get and partial-update requests the client
sends; writes are visible to the next request (`Refresh: "true"`). Only the part of the query
language the collector uses is evaluated: `match_all`, `term` and `exists` clauses, alone or
under one `bool` with `must` and `must_not`, and a sort on one date field. Any other request
is answered with status 400. A partial update overwrites the named top-level fields. -/

/-- Documents of the index by `_id`; identifiers are unique in an index. -/
abbrev Store := List (String × Doc)

namespace Backend

/-- Equality of a stored scalar with the value of a `term` clause. -/
def termEq : JSON → JSON → Bool
  | JSON.bool a, JSON.bool b => decide (a = b)
  | JSON.num a, JSON.num b => decide (a = b)
  | JSON.str a, JSON.str b => decide (a = b)
  | _, _ => false

/-- A field exists in a document when it is present with a non-null value. -/
def fieldExists (d : Doc) (f : String) : Bool :=
  match d.get f with
  | none => false
  | some JSON.null => false
  | some _ => true

/-- A `match_all`, `term` or `exists` clause on a document; `none` for any other clause. -/
def leafMatches (d : Doc) (clause : JSON) : Option Bool :=
  match clause with
  | JSON.obj [(k, arg)] =>
    if k = "match_all" then some true
    else if k = "term" then
      match arg with
      | JSON.obj [(f, v)] => some (match d.get f with
          | some w => termEq w v
          | none => false)
      | _ => none
    else if k = "exists" then
      match arg with
      | JSON.obj [(k', JSON.str f)] => if k' = "field" then some (fieldExists d f) else none
      | _ => none
    else none
  | _ => none

/-- The values of a list of leaf clauses on a document; `none` when one is not evaluated. -/
def leafValues (d : Doc) : List JSON → Option (List Bool)
  | [] => some []
  | c :: cs => do
    let b ← leafMatches d c
    let bs ← leafValues d cs
    pure (b :: bs)

/-- The clause list under `must` or `must_not`: absent is empty. -/
def clauseList : Option JSON → Option (List JSON)
  | none => some []
  | some (JSON.arr cs) => some cs
  | some _ => none

/-- The value of the `query` member of a search body on a document. -/
def queryMatches (d : Doc) (q : JSON) : Option Bool :=
  match q with
  | JSON.obj [(k, JSON.obj b)] =>
    if k = "bool" then do
      let must ← clauseList (Doc.get b "must")
      let mustNot ← clauseList (Doc.get b "must_not")
      let ms ← leafValues d must
      let ns ← leafValues d mustNot
      pure (ms.all id && !(ns.any id))
    else leafMatches d q
  | _ => leafMatches d q

/-- The `sort` member of a search body: absent, or one field with its order
(`true` is descending). -/
def sortSpec : Option JSON → Option (Option (String × Bool))
  | none => some none
  | some (JSON.arr [JSON.obj [(f, JSON.obj [(k, JSON.str o)])]]) =>
    if k = "order" then
      if o = "desc" then some (some (f, true))
      else if o = "asc" then some (some (f, false))
      else none
    else none
  | some _ => none

/-- The sort value of a date field of a document. -/
def dateKey (tc : TimeCodec) (f : String) (d : Doc) : Option Int :=
  ((asString (d.get f)).bind tc.parse).map Time.unixNano

/-- Whether sort value `a` comes strictly before `b`; documents without a value come last. -/
def sortsBefore (desc : Bool) : Option Int → Option Int → Bool
  | some a, some b => if desc then decide (b < a) else decide (a < b)
  | some _, none => true
  | none, _ => false

/-- Stable insertion of a hit into a list sorted on field `f`. -/
def insertHit (tc : TimeCodec) (f : String) (desc : Bool) (h : String × Doc) :
    List (String × Doc) → List (String × Doc)
  | [] => [h]
  | h' :: t =>
    if sortsBefore desc (dateKey tc f h.2) (dateKey tc f h'.2) then h :: h' :: t
    else h' :: insertHit tc f desc h t

/-- The hits in sorted order. -/
def sortHits (tc : TimeCodec) (spec : Option (String × Bool)) (hs : List (String × Doc)) :
    List (String × Doc) :=
  match spec with
  | none => hs
  | some (f, desc) => hs.foldr (insertHit tc f desc) []

/-- The documents of the store a query matches, in store order; `none` when the query is
outside the evaluated part of the query language. -/
def matching (q : JSON) : Store → Option (List (String × Doc))
  | [] => some []
  | h :: t => do
    let b ← queryMatches h.2 q
    let rest ← matching q t
    pure (if b then h :: rest else rest)

/-- The documents selected by a search body, sorted and cut to `size`; `none` when the body
is outside the evaluated part of the query language or `size` is negative. -/
def select (tc : TimeCodec) (store : Store) (body : JSON) (size : Int) :
    Option (List (String × Doc)) :=
  match body with
  | JSON.obj b => do
    let q := (Doc.get b "query").getD (JSON.obj [("match_all", JSON.obj [])])
    let spec ← sortSpec (Doc.get b "sort")
    let hits ← matching q store
    if size < 0 then none else pure ((sortHits tc spec hits).take size.toNat)
  | _ => none

/-- One element of `hits.hits` in a search response. -/
def hitJSON (index : String) (h : String × Doc) : JSON :=
  JSON.obj [("_index", JSON.str index), ("_id", JSON.str h.1), ("_score", JSON.null),
            ("_source", JSON.obj h.2)]

/-- The body of an error response. -/
def errorBody (type : String) (status : Int) : JSON :=
  JSON.obj [("error", JSON.obj [("type", JSON.str type)]), ("status", JSON.num status)]

/-- The response to `POST /index/_search?size=..`. -/
def search (tc : TimeCodec) (store : Store) (index : String) (body : JSON) (size : Int) :
    Response :=
  match select tc store body size with
  | none => ⟨400, some (errorBody "parsing_exception" 400)⟩
  | some hits =>
    ⟨200, some (JSON.obj
      [("took", JSON.num 1), ("timed_out", JSON.bool false),
       ("hits", JSON.obj [("max_score", JSON.null), ("hits", JSON.arr (hits.map (hitJSON index)))])])⟩

/-- The document stored under an identifier. -/
def find : Store → String → Option Doc
  | [], _ => none
  | (i, d) :: t, id => if i = id then some d else find t id

/-- The response to `GET /index/_doc/id`. -/
def get (store : Store) (index : String) (id : String) : Response :=
  match find store id with
  | some d => ⟨200, some (JSON.obj
      [("_index", JSON.str index), ("_id", JSON.str id), ("found", JSON.bool true),
       ("_source", JSON.obj d)])⟩
  | _ => ⟨404, some (JSON.obj
      [("_index", JSON.str index), ("_id", JSON.str id), ("found", JSON.bool false)])⟩

/-- Partial-document merge: the named fields are overwritten, the others are untouched. -/
def merge (d : Doc) (fields : Doc) : Doc :=
  fields.foldl (fun acc kv => acc.set kv.1 kv.2) d

/-- The store after a partial update of the document `id`. -/
def mergeInto (store : Store) (id : String) (fields : Doc) : Store :=
  store.map (fun h => if h.1 = id then (h.1, merge h.2 fields) else h)

/-- Whether the index holds a document `id`. -/
def contains (store : Store) (id : String) : Bool := store.any (fun h => decide (h.1 = id))

/-- The response to `POST /index/_update/id?refresh=true` and the store after it. -/
def update (store : Store) (index : String) (id : String) (body : JSON) : Response × Store :=
  match body with
  | JSON.obj b =>
    match asObject (Doc.get b "doc") with
    | some fields =>
      if contains store id then
        (⟨200, some (JSON.obj [("_index", JSON.str index), ("_id", JSON.str id),
                               ("result", JSON.str "updated")])⟩,
         mergeInto store id fields)
      else (⟨404, some (errorBody "document_missing_exception" 404)⟩, store)
    | none => (⟨400, some (errorBody "action_request_validation_exception" 400)⟩, store)
  | _ => (⟨400, some (errorBody "parsing_exception" 400)⟩, store)

/-- The transport over the reference store: every request is performed. -/
def client (tc : TimeCodec) : ElasticClient Store :=
  { Search := fun s index body size => Except.ok (search tc s index body size),
    Get := fun s index id => Except.ok (get s index id),
    Update := fun s index id body =>
      (Except.ok (update s index id body).1, (update s index id body).2) }

end Backend

/-- The gateway of the repository, `ESClient`, over the reference store. -/
def esGateway (tc : TimeCodec) : Client Store := ESClient.toClient ⟨Backend.client tc⟩

/-- The gateway contract realised directly on the reference store: a search returns the
selected documents, each with its identifier under `_id` (a negative size counts as 10, a
nil query as `match_all`); an update is a partial merge, visible to the next search. -/
def storeGateway (tc : TimeCodec) : Client Store :=
  { Search := fun s _ query size =>
      match Backend.select tc s (JSON.obj (query.getD matchAllQuery)) (if size < 0 then 10 else size) with
      | none => Except.error (Error.errorf "查询失败:" [("status", JSON.num 400)])
      | some hits => Except.ok (hits.map (fun h => h.2.set "_id" (JSON.str h.1))),
    Update := fun s _ id document =>
      match document with
      | JSON.obj fields =>
        if Backend.contains s id then (none, Backend.mergeInto s id fields)
        else (some (Error.errorf "elasticsearch error: " [("status", JSON.num 404)]), s)
      | _ => (some (Error.errorf "elasticsearch error: " [("status", JSON.num 400)]), s) }

/-! ## Example data -/

/-- A codec that knows the text form of four instants. -/
def exampleCodec : TimeCodec :=
  { format := fun t =>
      if t.unixNano = 10000000000 then "1970-01-01T00:00:10Z"
      else if t.unixNano = 15000000000 then "1970-01-01T00:00:15Z"
      else if t.unixNano = 20000000000 then "1970-01-01T00:00:20Z"
      else "1970-01-01T00:00:30Z",
    parse := fun s =>
      if s = "1970-01-01T00:00:10Z" then some ⟨10000000000⟩
      else if s = "1970-01-01T00:00:15Z" then some ⟨15000000000⟩
      else if s = "1970-01-01T00:00:20Z" then some ⟨20000000000⟩
      else if s = "1970-01-01T00:00:30Z" then some ⟨30000000000⟩
      else none }

/-- Document A of the scenario: timestamp 10, unclaimed. -/
def docA : Doc :=
  [("timestamp", JSON.str "1970-01-01T00:00:10Z"), ("raw_log", JSON.str "a"),
   ("processed", JSON.bool false)]

/-- Document B of the scenario: timestamp 20, unclaimed. -/
def docB : Doc :=
  [("timestamp", JSON.str "1970-01-01T00:00:20Z"), ("raw_log", JSON.str "b"),
   ("processed", JSON.bool false)]

/-- Document C of the scenario: timestamp 15, claimed at 30. -/
def docC : Doc :=
  [("timestamp", JSON.str "1970-01-01T00:00:15Z"), ("raw_log", JSON.str "c"),
   ("processed", JSON.bool false), ("processing_timestamp", JSON.str "1970-01-01T00:00:30Z")]

/-- The store of the scenario. -/
def scenarioStore : Store := [("A", docA), ("B", docB), ("C", docC)]

/-- The record decoded from document A. -/
def logA : UnProcessedLog :=
  { ID := "A", Timestamp := ⟨10000000000⟩, RawLog := "a", Source := "", LogType := "",
    IndexName := "", Processed := false, ProcessStamp := none, AnalysisID := none }

/-- The record decoded from document B. -/
def logB : UnProcessedLog :=
  { ID := "B", Timestamp := ⟨20000000000⟩, RawLog := "b", Source := "", LogType := "",
    IndexName := "", Processed := false, ProcessStamp := none, AnalysisID := none }

/-- The collector of the repository over the reference store. -/
def esCollector : ESCollector Store :=
  { esClient := esGateway exampleCodec, indexName := "log-unprocess" }

/-- A collector over the gateway contract realised on the reference store. -/
def storeCollector : ESCollector Store :=
  { esClient := storeGateway exampleCodec, indexName := "log-unprocess" }

/-- A transport that answers every request with one fixed response. -/
def fixedTransport (r : Response) : ElasticClient Unit :=
  { Search := fun _ _ _ _ => Except.ok r,
    Get := fun _ _ _ => Except.ok r,
    Update := fun _ _ _ _ => (Except.ok r, ()) }

/-- A gateway whose `Search` returns one fixed sequence of documents. -/
def listGateway (docs : List Doc) : Client Unit :=
  { Search := fun _ _ _ _ => Except.ok docs,
    Update := fun _ _ _ _ => (none, ()) }

/-- Documents as a gateway may return them: with an `id` in the body and a string `_id`; with
a number as timestamp; with an `_id` that is not a string; with a number under a key that
matches `timestamp` by the long s; with a string under `process`; with keys in other letter
case, two of them for one field, and `null` values; with a string under `process_stamp` that
is not the text of an instant; with a long-s key and a `null` for one field. -/
def mixedDocs : List Doc :=
  [[("id", JSON.str "body-1"), ("raw_log", JSON.str "x"), ("_id", JSON.str "es-1")],
   [("timestamp", JSON.num 5), ("_id", JSON.str "es-2")],
   [("id", JSON.str "body-3"), ("_id", JSON.num 7)],
   [("timeſtamp", JSON.num 5), ("_id", JSON.str "es-4")],
   [("process", JSON.str "true"), ("_id", JSON.str "es-5")],
   [("id", JSON.str "lower"), ("ID", JSON.str "upper"), ("PROCESS", JSON.bool true),
    ("process_stamp", JSON.null), ("analysis_id", JSON.str "an"),
    ("timestamp", JSON.str "1970-01-01T00:00:10Z"), ("_id", JSON.null)],
   [("process_stamp", JSON.str "yesterday"), ("_id", JSON.str "es-7")],
   [("ſource", JSON.str "s8"), ("source", JSON.null),
    ("Process_Stamp", JSON.str "1970-01-01T00:00:30Z"), ("_id", JSON.str "es-8")]]

/-- A search response body without a `hits` member. -/
def bodyWithoutHits : JSON := JSON.obj [("took", JSON.num 1), ("timed_out", JSON.bool false)]

/-! ## Lemmas on maps -/

theorem Doc.get_set_self (m : Doc) (k : String) (v : JSON) : (m.set k v).get k = some v := by
  induction m with
  | nil => simp [Doc.set, Doc.get]
  | cons h t ih =>
    obtain ⟨k', v'⟩ := h
    by_cases hk : k' = k
    · simp [Doc.set, Doc.get, hk]
    · simp [Doc.set, Doc.get, hk, ih]

theorem Doc.get_set_ne (m : Doc) (k k2 : String) (v : JSON) (hne : k2 ≠ k) :
    (m.set k v).get k2 = m.get k2 := by
  induction m with
  | nil => simp [Doc.set, Doc.get, hne.symm]
  | cons h t ih =>
    obtain ⟨k', v'⟩ := h
    by_cases hk : k' = k
    · subst hk
      simp [Doc.set, Doc.get, hne.symm]
    · by_cases hk2 : k' = k2
      · subst hk2
        simp [Doc.set, Doc.get, hk]
      · simp [Doc.set, Doc.get, hk, hk2, ih]

theorem Doc.set_eq_self (m : Doc) (k : String) (v : JSON) (h : m.get k = some v) :
    m.set k v = m := by
  induction m with
  | nil => simp [Doc.get] at h
  | cons hd t ih =>
    obtain ⟨k', v'⟩ := hd
    by_cases hk : k' = k
    · subst hk
      simp [Doc.get] at h
      simp [Doc.set, h]
    · simp [Doc.get, hk] at h
      simp [Doc.set, hk, ih h]

/-! ## Lemmas on the collector loops -/

theorem foldl_fetchStep (tc : TimeCodec) (docs : List Doc) (logs : List UnProcessedLog) :
    docs.foldl (fetchStep tc) logs = logs ++
      docs.filterMap (fun m => (decodeUnProcessedLog tc m).map (assignID m)) := by
  induction docs generalizing logs with
  | nil => simp
  | cons m t ih =>
    rw [List.foldl_cons, ih]
    cases h : decodeUnProcessedLog tc m <;> simp [fetchStep, List.filterMap_cons, h]

theorem assignID_of_string (m : Doc) (log : UnProcessedLog) (id : String)
    (h : m.get "_id" = some (JSON.str id)) : (assignID m log).ID = id := by
  simp [assignID, h, asString]

/-- C4: for every gateway and every integer `batchSize`, `FetchUnprocessedLogs` issues its
search with size 30 when `batchSize ≤ 0`, 100 when `batchSize > 100` and `batchSize` otherwise;
so it returns what `FetchUnprocessedLogs 30` returns when `batchSize ≤ 0` and what
`FetchUnprocessedLogs 100` returns when `batchSize > 100`. -/
theorem fetch_batch_size_normalised {σ : Type} (e : ESCollector σ) (tc : TimeCodec) (s : σ)
    (batchSize : Int) :
    e.FetchUnprocessedLogs tc s batchSize =
        (match e.esClient.Search s e.indexName (some fetchQuery)
            (if batchSize ≤ 0 then 30 else if batchSize > 100 then 100 else batchSize) with
         | Except.error err => Except.error err
         | Except.ok result => Except.ok (result.foldl (fetchStep tc) []))
      ∧ (batchSize ≤ 0 → e.FetchUnprocessedLogs tc s batchSize = e.FetchUnprocessedLogs tc s 30)
      ∧ (batchSize > 100 →
          e.FetchUnprocessedLogs tc s batchSize = e.FetchUnprocessedLogs tc s 100) := by
  refine ⟨rfl, ?_, ?_⟩
  · intro h
    simp [ESCollector.FetchUnprocessedLogs, normalizeBatchSize, DefaultBatchSize, MaxBatchSize, h]
  · intro h
    have h' : ¬ batchSize ≤ 0 := by omega
    simp [ESCollector.FetchUnprocessedLogs, normalizeBatchSize, DefaultBatchSize, MaxBatchSize, h, h']

/-- C4 at the scenario store: sizes -5 and 250 give the results of sizes 30 and 100. -/
theorem fetch_batch_size_normalised_witness :
    storeCollector.FetchUnprocessedLogs exampleCodec scenarioStore (-5) =
        storeCollector.FetchUnprocessedLogs exampleCodec scenarioStore 30
      ∧ storeCollector.FetchUnprocessedLogs exampleCodec scenarioStore 250 =
        storeCollector.FetchUnprocessedLogs exampleCodec scenarioStore 100 :=
  ⟨(fetch_batch_size_normalised storeCollector exampleCodec scenarioStore (-5)).2.1 (by decide),
   (fetch_batch_size_normalised storeCollector exampleCodec scenarioStore 250).2.2 (by decide)⟩

/-- C6: `UpdateLogProcessStatus` and `UpdateLogAnalysisStatus` return an error exactly when the
gateway's `Update` does, and the error returned is then the transition's wrapper around the
gateway's error, which `Unwrap` gives back. -/
theorem update_status_wraps_gateway_error {σ : Type} (e : ESCollector σ) (tc : TimeCodec)
    (now : Time) (s : σ) (logID analysisID : String) :
    ((e.UpdateLogProcessStatus tc now s logID).1 = none ↔
        (e.esClient.Update s e.indexName logID
          (JSON.obj [("processing_timestamp", JSON.str (tc.format now))])).1 = none)
      ∧ (∀ err, (e.esClient.Update s e.indexName logID
            (JSON.obj [("processing_timestamp", JSON.str (tc.format now))])).1 = some err →
          (e.UpdateLogProcessStatus tc now s logID).1 =
              some (Error.wrap "failed to mark log as processing" err)
            ∧ (Error.wrap "failed to mark log as processing" err).Unwrap = some err)
      ∧ ((e.UpdateLogAnalysisStatus s logID analysisID).1 = none ↔
        (e.esClient.Update s e.indexName logID
          (JSON.obj [("analysis_id", JSON.str analysisID), ("processed", JSON.str "true")])).1 = none)
      ∧ (∀ err, (e.esClient.Update s e.indexName logID
            (JSON.obj [("analysis_id", JSON.str analysisID), ("processed", JSON.str "true")])).1
              = some err →
          (e.UpdateLogAnalysisStatus s logID analysisID).1 =
              some (Error.wrap "failed to update log with analysis" err)
            ∧ (Error.wrap "failed to update log with analysis" err).Unwrap = some err) := by
  have hp : (e.UpdateLogProcessStatus tc now s logID).1 =
      (e.esClient.Update s e.indexName logID
        (JSON.obj [("processing_timestamp", JSON.str (tc.format now))])).1.map
        (Error.wrap "failed to mark log as processing") := by
    dsimp only [ESCollector.UpdateLogProcessStatus]
    generalize e.esClient.Update s e.indexName logID
      (JSON.obj [("processing_timestamp", JSON.str (tc.format now))]) = g
    obtain ⟨_ | err, s'⟩ := g <;> rfl
  have ha : (e.UpdateLogAnalysisStatus s logID analysisID).1 =
      (e.esClient.Update s e.indexName logID
        (JSON.obj [("analysis_id", JSON.str analysisID), ("processed", JSON.str "true")])).1.map
        (Error.wrap "failed to update log with analysis") := by
    dsimp only [ESCollector.UpdateLogAnalysisStatus]
    generalize e.esClient.Update s e.indexName logID
      (JSON.obj [("analysis_id", JSON.str analysisID), ("processed", JSON.str "true")]) = g
    obtain ⟨_ | err, s'⟩ := g <;> rfl
  refine ⟨?_, ?_, ?_, ?_⟩
  · rw [hp]
    simp
  · intro err h
    rw [hp, h]
    exact ⟨rfl, rfl⟩
  · rw [ha]
    simp
  · intro err h
    rw [ha, h]
    exact ⟨rfl, rfl⟩

/-- C6 at the scenario store: claiming `missing-id` returns the wrapper of the backend's
document-missing error. -/
theorem update_status_wraps_gateway_error_witness :
    (esCollector.UpdateLogProcessStatus exampleCodec ⟨30000000000⟩ scenarioStore "missing-id").1 =
        some (Error.wrap "failed to mark log as processing"
          (Error.errorf "elasticsearch error: "
            [("error", JSON.obj [("type", JSON.str "document_missing_exception")]),
             ("status", JSON.num 404)]))
      ∧ (Error.wrap "failed to mark log as processing"
          (Error.errorf "elasticsearch error: "
            [("error", JSON.obj [("type", JSON.str "document_missing_exception")]),
             ("status", JSON.num 404)])).Unwrap =
        some (Error.errorf "elasticsearch error: "
            [("error", JSON.obj [("type", JSON.str "document_missing_exception")]),
             ("status", JSON.num 404)]) :=
  (update_status_wraps_gateway_error esCollector exampleCodec ⟨30000000000⟩ scenarioStore
    "missing-id" "").2.1 _ rfl

/-! ## Lemmas on the decoding -/

theorem lastNonNull_accepted (p : JSON → Bool) (vs : List JSON) (w : JSON)
    (hall : vs.all p = true) (hw : lastNonNull vs = some w) : p w = true ∧ w ≠ JSON.null := by
  induction vs with
  | nil => simp [lastNonNull] at hw
  | cons v t ih =>
    simp only [List.all_cons, Bool.and_eq_true] at hall
    simp only [lastNonNull] at hw
    cases ht : lastNonNull t with
    | some w' =>
      rw [ht] at hw
      simp only [Option.some.injEq] at hw
      subst hw
      exact ih hall.2 ht
    | none =>
      rw [ht] at hw
      cases v <;> simp at hw <;> subst hw <;> exact ⟨hall.1, by simp⟩

theorem foldlM_storeString (tc : TimeCodec) (vs : List JSON) (init : String) :
    vs.foldlM storeString init =
      if vs.all (accepts tc GoType.string) then
        some (match lastNonNull vs with
          | some (JSON.str s) => s
          | _ => init)
      else none := by
  induction vs generalizing init with
  | nil => simp [lastNonNull]
  | cons v t ih =>
    rw [List.foldlM_cons]
    cases v with
    | null =>
      simp only [storeString, Option.bind_eq_bind, Option.some_bind, ih, List.all_cons, accepts,
        Bool.true_and, lastNonNull]
      cases lastNonNull t <;> rfl
    | str s =>
      simp only [storeString, Option.bind_eq_bind, Option.some_bind, ih, List.all_cons, accepts,
        Bool.true_and, lastNonNull]
      by_cases hall : t.all (accepts tc GoType.string) = true
      · simp only [hall, if_true, Option.some.injEq]
        cases ht : lastNonNull t with
        | none => rfl
        | some w =>
          obtain ⟨hw, hnull⟩ := lastNonNull_accepted _ t w hall ht
          cases w <;> simp [accepts] at hw hnull ⊢
      · simp [hall]
    | bool b => simp [storeString, accepts]
    | num n => simp [storeString, accepts]
    | arr xs => simp [storeString, accepts]
    | obj kvs => simp [storeString, accepts]

theorem foldlM_storeBool (tc : TimeCodec) (vs : List JSON) (init : Bool) :
    vs.foldlM storeBool init =
      if vs.all (accepts tc GoType.bool) then
        some (match lastNonNull vs with
          | some (JSON.bool b) => b
          | _ => init)
      else none := by
  induction vs generalizing init with
  | nil => simp [lastNonNull]
  | cons v t ih =>
    rw [List.foldlM_cons]
    cases v with
    | null =>
      simp only [storeBool, Option.bind_eq_bind, Option.some_bind, ih, List.all_cons, accepts,
        Bool.true_and, lastNonNull]
      cases lastNonNull t <;> rfl
    | bool b =>
      simp only [storeBool, Option.bind_eq_bind, Option.some_bind, ih, List.all_cons, accepts,
        Bool.true_and, lastNonNull]
      by_cases hall : t.all (accepts tc GoType.bool) = true
      · simp only [hall, if_true, Option.some.injEq]
        cases ht : lastNonNull t with
        | none => rfl
        | some w =>
          obtain ⟨hw, hnull⟩ := lastNonNull_accepted _ t w hall ht
          cases w <;> simp [accepts] at hw hnull ⊢
      · simp [hall]
    | str s => simp [storeBool, accepts]
    | num n => simp [storeBool, accepts]
    | arr xs => simp [storeBool, accepts]
    | obj kvs => simp [storeBool, accepts]

theorem foldlM_storeTime (tc : TimeCodec) (vs : List JSON) (init : Time) :
    vs.foldlM (storeTime tc) init =
      if vs.all (accepts tc GoType.time) then
        some (match lastNonNull vs with
          | some (JSON.str s) => (tc.parse s).getD Time.zero
          | _ => init)
      else none := by
  induction vs generalizing init with
  | nil => simp [lastNonNull]
  | cons v t ih =>
    rw [List.foldlM_cons]
    cases v with
    | null =>
      simp only [storeTime, Option.bind_eq_bind, Option.some_bind, ih, List.all_cons, accepts,
        Bool.true_and, lastNonNull]
      cases lastNonNull t <;> rfl
    | str s =>
      cases hp : tc.parse s with
      | none => simp [storeTime, accepts, hp]
      | some ts =>
        simp only [storeTime, hp, Option.bind_eq_bind, Option.some_bind, ih, List.all_cons,
          accepts, Option.isSome_some, Bool.true_and, lastNonNull]
        by_cases hall : t.all (accepts tc GoType.time) = true
        · simp only [hall, if_true, Option.some.injEq]
          cases ht : lastNonNull t with
          | none => simp [hp]
          | some w =>
            obtain ⟨hw, hnull⟩ := lastNonNull_accepted _ t w hall ht
            cases w <;> simp [accepts] at hw hnull ⊢
        · simp [hall]
    | bool b => simp [storeTime, accepts]
    | num n => simp [storeTime, accepts]
    | arr xs => simp [storeTime, accepts]
    | obj kvs => simp [storeTime, accepts]

theorem getLast?_cons_some (v : JSON) (t : List JSON) : ∃ w, (v :: t).getLast? = some w :=
  ⟨_, List.getLast?_eq_getLast _ (List.cons_ne_nil v t)⟩

theorem match_getLast?_cons {α : Type} (h : JSON) (tl : List JSON) (f : String → Option α)
    (a b : Option α) :
    (match (h :: tl).getLast? with
      | some (JSON.str s) => f s
      | some _ => none
      | none => a) =
    (match (h :: tl).getLast? with
      | some (JSON.str s) => f s
      | some _ => none
      | none => b) := by
  obtain ⟨w, hw⟩ := getLast?_cons_some h tl
  rw [hw]
  cases w <;> rfl

theorem foldlM_storeTimePtr (tc : TimeCodec) (vs : List JSON) (init : Option Time) :
    vs.foldlM (storeTimePtr tc) init =
      if vs.all (accepts tc GoType.timePtr) then
        some (match vs.getLast? with
          | some (JSON.str s) => tc.parse s
          | some _ => none
          | none => init)
      else none := by
  induction vs generalizing init with
  | nil => simp
  | cons v t ih =>
    rw [List.foldlM_cons]
    cases v with
    | null =>
      simp only [storeTimePtr, Option.bind_eq_bind, Option.some_bind, ih, List.all_cons, accepts,
        Bool.true_and]
      cases t with
      | nil => simp
      | cons h tl => rw [List.getLast?_cons_cons, match_getLast?_cons h tl tc.parse none init]
    | str s =>
      cases hp : tc.parse s with
      | none => simp [storeTimePtr, accepts, hp]
      | some ts =>
        simp only [storeTimePtr, hp, Option.map_some', Option.bind_eq_bind, Option.some_bind, ih,
          List.all_cons, accepts, Option.isSome_some, Bool.true_and]
        cases t with
        | nil => simp [hp]
        | cons h tl =>
          rw [List.getLast?_cons_cons, match_getLast?_cons h tl tc.parse (some ts) init]
    | bool b => simp [storeTimePtr, accepts]
    | num n => simp [storeTimePtr, accepts]
    | arr xs => simp [storeTimePtr, accepts]
    | obj kvs => simp [storeTimePtr, accepts]

theorem foldlM_storeStringPtr (tc : TimeCodec) (vs : List JSON) (init : Option String) :
    vs.foldlM storeStringPtr init =
      if vs.all (accepts tc GoType.stringPtr) then
        some (match vs.getLast? with
          | some (JSON.str s) => some s
          | some _ => none
          | none => init)
      else none := by
  induction vs generalizing init with
  | nil => simp
  | cons v t ih =>
    rw [List.foldlM_cons]
    cases v with
    | null =>
      simp only [storeStringPtr, Option.bind_eq_bind, Option.some_bind, ih, List.all_cons,
        accepts, Bool.true_and]
      cases t with
      | nil => simp
      | cons h tl => rw [List.getLast?_cons_cons, match_getLast?_cons h tl some none init]
    | str s =>
      simp only [storeStringPtr, Option.bind_eq_bind, Option.some_bind, ih, List.all_cons,
        accepts, Bool.true_and]
      cases t with
      | nil => simp
      | cons h tl => rw [List.getLast?_cons_cons, match_getLast?_cons h tl some (some s) init]
    | bool b => simp [storeStringPtr, accepts]
    | num n => simp [storeStringPtr, accepts]
    | arr xs => simp [storeStringPtr, accepts]
    | obj kvs => simp [storeStringPtr, accepts]

theorem all_insertKey (g : String × JSON → Bool) (kv : String × JSON) (l : Doc) :
    (insertKey kv l).all g = (g kv && l.all g) := by
  induction l with
  | nil => simp [insertKey]
  | cons h t ih =>
    simp only [insertKey]
    split
    · simp
    · simp only [List.all_cons, ih]
      cases g h <;> cases g kv <;> simp

theorem all_sortKeys (g : String × JSON → Bool) (m : Doc) :
    (sortKeys m).all g = (dedupKeys m).all g := by
  unfold sortKeys
  induction dedupKeys m with
  | nil => rfl
  | cons h t ih => simp only [List.foldr_cons, all_insertKey, ih, List.all_cons]

theorem all_filter_map (q : String × JSON → Bool) (p : JSON → Bool) (l : Doc) :
    ((l.filter q).map Prod.snd).all p = l.all (fun kv => !q kv || p kv.2) := by
  induction l with
  | nil => rfl
  | cons h t ih =>
    simp only [List.filter_cons]
    cases hq : q h
    · simp [ih, hq]
    · simp [ih, hq]

theorem all_fieldValues (tag : String) (p : JSON → Bool) (m : Doc) :
    (fieldValues tag m).all p =
      (dedupKeys m).all (fun kv => !keyMatches tag kv.1 || p kv.2) := by
  unfold fieldValues
  rw [all_filter_map, all_sortKeys]

/-- The decoding by keys visited agrees with the account by field. -/
theorem decodeUnProcessedLog_eq (tc : TimeCodec) (m : Doc) :
    decodeUnProcessedLog tc m =
      if decodable tc m then some (decodedRecord tc m) else none := by
  have hdec : decodable tc m =
      ((fieldValues "id" m).all (accepts tc GoType.string)
        && ((fieldValues "timestamp" m).all (accepts tc GoType.time)
        && ((fieldValues "raw_log" m).all (accepts tc GoType.string)
        && ((fieldValues "source" m).all (accepts tc GoType.string)
        && ((fieldValues "log_type" m).all (accepts tc GoType.string)
        && ((fieldValues "index_name" m).all (accepts tc GoType.string)
        && ((fieldValues "process" m).all (accepts tc GoType.bool)
        && ((fieldValues "process_stamp" m).all (accepts tc GoType.timePtr)
        && (fieldValues "analysis_id" m).all (accepts tc GoType.stringPtr))))))))) := by
    simp only [decodable, unProcessedLogFields, List.all_cons, List.all_nil, Bool.and_true,
      all_fieldValues]
  rw [hdec]
  simp only [decodeUnProcessedLog, Option.bind_eq_bind, foldlM_storeString tc, foldlM_storeBool tc,
    foldlM_storeTime tc, foldlM_storeTimePtr tc, foldlM_storeStringPtr tc, decodedRecord]
  generalize (fieldValues "id" m).all (accepts tc GoType.string) = b1
  generalize (fieldValues "timestamp" m).all (accepts tc GoType.time) = b2
  generalize (fieldValues "raw_log" m).all (accepts tc GoType.string) = b3
  generalize (fieldValues "source" m).all (accepts tc GoType.string) = b4
  generalize (fieldValues "log_type" m).all (accepts tc GoType.string) = b5
  generalize (fieldValues "index_name" m).all (accepts tc GoType.string) = b6
  generalize (fieldValues "process" m).all (accepts tc GoType.bool) = b7
  generalize (fieldValues "process_stamp" m).all (accepts tc GoType.timePtr) = b8
  generalize (fieldValues "analysis_id" m).all (accepts tc GoType.stringPtr) = b9
  cases b1 <;> first | rfl | skip
  cases b2 <;> first | rfl | skip
  cases b3 <;> first | rfl | skip
  cases b4 <;> first | rfl | skip
  cases b5 <;> first | rfl | skip
  cases b6 <;> first | rfl | skip
  cases b7 <;> first | rfl | skip
  cases b8 <;> first | rfl | skip
  cases b9 <;> first | rfl | skip
  generalize (fieldValues "process_stamp" m).getLast? = o1
  generalize (fieldValues "analysis_id" m).getLast? = o2
  rcases o1 with _ | w1 <;> rcases o2 with _ | w2
  · rfl
  · cases w2 <;> rfl
  · cases w1 <;> rfl
  · cases w1 <;> cases w2 <;> rfl

theorem mem_dedupKeys (m : Doc) (k : String) (v : JSON) :
    (k, v) ∈ dedupKeys m ↔ m.get k = some v := by
  induction m with
  | nil => simp [dedupKeys, Doc.get]
  | cons h t ih =>
    obtain ⟨k0, v0⟩ := h
    simp only [dedupKeys, List.mem_cons, List.mem_filter, Prod.mk.injEq, Doc.get, ih]
    by_cases hk : k0 = k
    · subst hk
      simp [eq_comm]
    · have hk' : ¬ k = k0 := fun h => hk h.symm
      simp [hk, hk']

theorem decodable_iff (tc : TimeCodec) (m : Doc) :
    decodable tc m = true ↔
      ∀ k v, m.get k = some v → ∀ ft ∈ unProcessedLogFields,
        keyMatches ft.1 k = true → accepts tc ft.2 v = true := by
  unfold decodable
  rw [List.all_eq_true]
  constructor
  · intro h k v hkv ft hft hmatch
    have := List.all_eq_true.mp (h ft hft) (k, v) ((mem_dedupKeys m k v).mpr hkv)
    simpa [hmatch] using this
  · intro h ft hft
    rw [List.all_eq_true]
    intro kv hkv
    have hget := (mem_dedupKeys m kv.1 kv.2).mp hkv
    cases hmatch : keyMatches ft.1 kv.1 with
    | false => rfl
    | true => simpa using h kv.1 kv.2 hget ft hft hmatch

theorem map_assignID_decode (tc : TimeCodec) (m : Doc) :
    (decodeUnProcessedLog tc m).map (assignID m) = expectedRecord tc m := by
  rw [decodeUnProcessedLog_eq]
  unfold expectedRecord
  by_cases hd : decodable tc m = true
  · simp only [hd, if_true, Option.map_some', assignID, Option.some.injEq]
    rcases hid : Doc.get m "_id" with _ | w
    · rfl
    · cases w <;> rfl
  · simp [hd]

/-- C7: when the gateway's `Search` returns documents without error, `FetchUnprocessedLogs`
returns without error, in the gateway's order, the record of every document that decodes as
`UnProcessedLog` and nothing for a document that does not. A document decodes exactly when
every key of it that matches a field's tag has a value the field accepts; its record holds the
values `decodedRecord` names, and as `ID` the document's `_id` whenever that is a string,
whatever `id` the body has. No documents give the empty sequence. -/
theorem fetch_returns_decodable_documents {σ : Type} (e : ESCollector σ) (tc : TimeCodec)
    (s : σ) (batchSize : Int) (docs : List Doc)
    (hsearch : e.esClient.Search s e.indexName (some fetchQuery) (normalizeBatchSize batchSize)
      = Except.ok docs) :
    e.FetchUnprocessedLogs tc s batchSize = Except.ok (docs.filterMap (expectedRecord tc))
      ∧ (∀ m, decodable tc m = true ↔
          ∀ k v, m.get k = some v → ∀ ft ∈ unProcessedLogFields,
            keyMatches ft.1 k = true → accepts tc ft.2 v = true)
      ∧ (∀ m r, expectedRecord tc m = some r →
          ∀ id, m.get "_id" = some (JSON.str id) → r.ID = id)
      ∧ (docs = [] → e.FetchUnprocessedLogs tc s batchSize = Except.ok []) := by
  have hfetch : e.FetchUnprocessedLogs tc s batchSize =
      Except.ok (docs.filterMap (expectedRecord tc)) := by
    unfold ESCollector.FetchUnprocessedLogs
    simp only [hsearch]
    rw [foldl_fetchStep]
    simp only [List.nil_append, map_assignID_decode]
  refine ⟨hfetch, decodable_iff tc, ?_, ?_⟩
  · intro m r hr id hid
    unfold expectedRecord at hr
    by_cases hd : decodable tc m = true
    · simp only [hd, if_true, hid, Option.some.injEq] at hr
      rw [← hr]
    · simp [hd] at hr
  · intro hnil
    rw [hfetch, hnil]
    rfl

/-- C7 on eight documents: the records of the first, third, sixth and eighth are returned in
that order; the body `id` of the first gives way to `_id`; the second, fourth, fifth and
seventh do not decode and are dropped. -/
theorem fetch_returns_decodable_documents_witness :
    (⟨listGateway mixedDocs, "log-unprocess"⟩ : ESCollector Unit).FetchUnprocessedLogs
        exampleCodec () 10 =
      Except.ok
        [{ ID := "es-1", Timestamp := Time.zero, RawLog := "x", Source := "", LogType := "",
           IndexName := "", Processed := false, ProcessStamp := none, AnalysisID := none },
         { ID := "body-3", Timestamp := Time.zero, RawLog := "", Source := "", LogType := "",
           IndexName := "", Processed := false, ProcessStamp := none, AnalysisID := none },
         { ID := "lower", Timestamp := ⟨10000000000⟩, RawLog := "", Source := "", LogType := "",
           IndexName := "", Processed := true, ProcessStamp := none, AnalysisID := some "an" },
         { ID := "es-8", Timestamp := Time.zero, RawLog := "", Source := "s8", LogType := "",
           IndexName := "", Processed := false, ProcessStamp := some ⟨30000000000⟩,
           AnalysisID := none }] :=
  (fetch_returns_decodable_documents ⟨listGateway mixedDocs, "log-unprocess"⟩ exampleCodec ()
    10 mixedDocs rfl).1

/-- C10: when the backend answers a search without error and the JSON object of its body has no
`hits` member, or one that is not an object, `Search` returns the empty sequence and no error. -/
theorem search_without_hits_returns_empty {σ : Type} (e : ESClient σ) (s : σ) (index : String)
    (query : Option Doc) (size : Int) (response : Response) (r : Doc)
    (hsent : e.Client.Search s index (JSON.obj (query.getD matchAllQuery))
      (if size < 0 then 10 else size) = Except.ok response)
    (hstatus : response.IsError = false)
    (hbody : response.Body = some (JSON.obj r))
    (hhits : r.get "hits" = none ∨ ∃ v, r.get "hits" = some v ∧ ∀ h, v ≠ JSON.obj h) :
    e.Search s index query size = Except.ok [] := by
  have hobj : asObject (r.get "hits") = none := by
    rcases hhits with h | ⟨v, h, hv⟩
    · rw [h]; rfl
    · rw [h]
      cases v with
      | obj kvs => exact absurd rfl (hv kvs)
      | _ => rfl
  cases query <;>
  · simp only [Option.getD_none, Option.getD_some] at hsent
    simp [ESClient.Search, hsent, hstatus, hbody, decodeObject, hobj]

/-- C10 on a response `{"took": 1, "timed_out": false}` with status 200. -/
theorem search_without_hits_returns_empty_witness :
    (⟨fixedTransport ⟨200, some bodyWithoutHits⟩⟩ : ESClient Unit).Search () "log-unprocess"
      (some fetchQuery) 30 = Except.ok [] :=
  search_without_hits_returns_empty ⟨fixedTransport ⟨200, some bodyWithoutHits⟩⟩ ()
    "log-unprocess" (some fetchQuery) 30 ⟨200, some bodyWithoutHits⟩
    [("took", JSON.num 1), ("timed_out", JSON.bool false)] rfl rfl rfl (Or.inl rfl)

/-- C8 (the code does not do this): when the backend answers a search without error and
`hits.hits` of its body is a JSON array, `Search` returns the empty sequence whatever the
array holds, because it asserts `hits.hits` to be an object. -/
theorem search_drops_array_hits {σ : Type} (e : ESClient σ) (s : σ) (index : String)
    (query : Option Doc) (size : Int) (response : Response) (r hits : Doc) (hs : List JSON)
    (hsent : e.Client.Search s index (JSON.obj (query.getD matchAllQuery))
      (if size < 0 then 10 else size) = Except.ok response)
    (hstatus : response.IsError = false)
    (hbody : response.Body = some (JSON.obj r))
    (hhits : r.get "hits" = some (JSON.obj hits))
    (harr : hits.get "hits" = some (JSON.arr hs)) :
    e.Search s index query size = Except.ok [] := by
  cases query <;>
  · simp only [Option.getD_none, Option.getD_some] at hsent
    simp [ESClient.Search, hsent, hstatus, hbody, decodeObject, hhits, harr, asObject]

/-- C8 at the scenario store: the backend lists A, B and C for `match_all`, each with an
object-valued `_source`, and `Search` returns no document. -/
theorem search_drops_array_hits_witness :
    Backend.search exampleCodec scenarioStore "log-unprocess" (JSON.obj matchAllQuery) 10 =
        ⟨200, some (JSON.obj
          [("took", JSON.num 1), ("timed_out", JSON.bool false),
           ("hits", JSON.obj [("max_score", JSON.null), ("hits", JSON.arr
              [Backend.hitJSON "log-unprocess" ("A", docA),
               Backend.hitJSON "log-unprocess" ("B", docB),
               Backend.hitJSON "log-unprocess" ("C", docC)])])])⟩
      ∧ (⟨Backend.client exampleCodec⟩ : ESClient Store).Search scenarioStore "log-unprocess"
          none 10 = Except.ok [] :=
  ⟨rfl, search_drops_array_hits ⟨Backend.client exampleCodec⟩ scenarioStore "log-unprocess"
    none 10 _ _ _ _ rfl rfl rfl rfl rfl⟩

/-- C1 (the code does not do this): on the scenario store the backend selects B then A for
the fetch query, and `FetchUnprocessedLogs 10` through `ESClient` returns the empty sequence
instead of the records of B and A. -/
theorem fetch_scenario_returns_nothing :
    Backend.select exampleCodec scenarioStore (JSON.obj fetchQuery) 10 =
        some [("B", docB), ("A", docA)]
      ∧ esCollector.FetchUnprocessedLogs exampleCodec scenarioStore 10 = Except.ok []
      ∧ storeCollector.FetchUnprocessedLogs exampleCodec scenarioStore 10 =
        Except.ok [logB, logA] :=
  ⟨rfl, rfl, rfl⟩

/-- C9 (the code does not do this): for document A of the scenario store the backend answers
with status 200 and an object-valued `_source`, and `GetByID` fails with the error
`_source not found in response`; for an identifier the store does not hold the backend
answers 404 and `GetByID` fails with `document not found`. -/
theorem getByID_rejects_source :
    Backend.get scenarioStore "log-unprocess" "A" =
        ⟨200, some (JSON.obj [("_index", JSON.str "log-unprocess"), ("_id", JSON.str "A"),
          ("found", JSON.bool true), ("_source", JSON.obj docA)])⟩
      ∧ (⟨Backend.client exampleCodec⟩ : ESClient Store).GetByID scenarioStore
          "log-unprocess" "A" = Except.error (Error.new "_source not found in response")
      ∧ (⟨Backend.client exampleCodec⟩ : ESClient Store).GetByID scenarioStore
          "log-unprocess" "missing-id" = Except.error (Error.new "document not found") :=
  ⟨rfl, rfl, rfl⟩

/-- C3 (the code does not do this): after a successful `UpdateLogAnalysisStatus "A" "an1"` on
the scenario store the stored `processed` is the string `"true"`, not the boolean, and the
record decodes with `Processed = false`; `analysis_id` is `"an1"`. -/
theorem analysis_status_stores_string :
    (esCollector.UpdateLogAnalysisStatus scenarioStore "A" "an1").1 = none
      ∧ Backend.find (esCollector.UpdateLogAnalysisStatus scenarioStore "A" "an1").2 "A" =
        some [("timestamp", JSON.str "1970-01-01T00:00:10Z"), ("raw_log", JSON.str "a"),
              ("processed", JSON.str "true"), ("analysis_id", JSON.str "an1")]
      ∧ (Backend.find (esCollector.UpdateLogAnalysisStatus scenarioStore "A" "an1").2 "A").bind
          (decodeUnProcessedLog exampleCodec) =
        some { ID := "", Timestamp := ⟨10000000000⟩, RawLog := "a", Source := "", LogType := "",
               IndexName := "", Processed := false, ProcessStamp := none,
               AnalysisID := some "an1" } :=
  ⟨rfl, rfl, rfl⟩

/-! ## Lemmas on the reference store -/

theorem Backend.mem_matching (q : JSON) (store : Store) (hits : List (String × Doc))
    (h : Backend.matching q store = some hits) :
    ∀ x ∈ hits, x ∈ store ∧ Backend.queryMatches x.2 q = some true := by
  induction store generalizing hits with
  | nil =>
    simp [Backend.matching] at h
    subst h
    simp
  | cons hd t ih =>
    simp only [Backend.matching] at h
    cases hb : Backend.queryMatches hd.2 q with
    | none => simp [hb] at h
    | some b =>
      cases hrest : Backend.matching q t with
      | none => simp [hb, hrest] at h
      | some rest =>
        simp [hb, hrest] at h
        intro x hx
        cases b with
        | true =>
          simp at h
          subst h
          rcases List.mem_cons.mp hx with hx | hx
          · subst hx
            exact ⟨List.mem_cons_self _ _, hb⟩
          · exact ⟨List.mem_cons_of_mem _ (ih rest hrest x hx).1, (ih rest hrest x hx).2⟩
        | false =>
          simp at h
          subst h
          exact ⟨List.mem_cons_of_mem _ (ih rest hrest x hx).1, (ih rest hrest x hx).2⟩

theorem Backend.mem_insertHit (tc : TimeCodec) (f : String) (desc : Bool) (h x : String × Doc)
    (l : List (String × Doc)) (hx : x ∈ Backend.insertHit tc f desc h l) : x = h ∨ x ∈ l := by
  induction l with
  | nil => simp [Backend.insertHit] at hx; exact Or.inl hx
  | cons hd t ih =>
    simp only [Backend.insertHit] at hx
    split at hx
    · simpa using hx
    · rcases List.mem_cons.mp hx with hx | hx
      · exact Or.inr (hx ▸ List.mem_cons_self _ _)
      · rcases ih hx with hx | hx
        · exact Or.inl hx
        · exact Or.inr (List.mem_cons_of_mem _ hx)

theorem Backend.mem_sortHits (tc : TimeCodec) (spec : Option (String × Bool))
    (hs : List (String × Doc)) (x : String × Doc) (hx : x ∈ Backend.sortHits tc spec hs) :
    x ∈ hs := by
  cases spec with
  | none => exact hx
  | some fd =>
    obtain ⟨f, desc⟩ := fd
    simp only [Backend.sortHits] at hx
    induction hs with
    | nil => simp at hx
    | cons hd t ih =>
      simp only [List.foldr_cons] at hx
      rcases Backend.mem_insertHit tc f desc hd x _ hx with hx | hx
      · exact hx ▸ List.mem_cons_self _ _
      · exact List.mem_cons_of_mem _ (ih hx)

/-- The `query` member of the fetch query. -/
theorem fetchQuery_query : Doc.get fetchQuery "query" = some (JSON.obj
      [("bool", JSON.obj
          [("must", JSON.arr [JSON.obj [("term", JSON.obj [("processed", JSON.bool false)])]]),
           ("must_not", JSON.arr
              [JSON.obj [("exists", JSON.obj [("field", JSON.str "processing_timestamp")])]])])]) :=
  rfl

theorem Backend.queryMatches_fetchQuery (d : Doc) :
    Backend.queryMatches d (JSON.obj
      [("bool", JSON.obj
          [("must", JSON.arr [JSON.obj [("term", JSON.obj [("processed", JSON.bool false)])]]),
           ("must_not", JSON.arr
              [JSON.obj [("exists", JSON.obj [("field", JSON.str "processing_timestamp")])]])])])
      = some ((match d.get "processed" with
                | some w => Backend.termEq w (JSON.bool false)
                | none => false) && !(Backend.fieldExists d "processing_timestamp")) := by
  simp [Backend.queryMatches, Backend.clauseList, Backend.leafMatches, Backend.leafValues, Doc.get]

theorem Backend.mem_select_fetchQuery (tc : TimeCodec) (store : Store) (size : Int)
    (hits : List (String × Doc))
    (h : Backend.select tc store (JSON.obj fetchQuery) size = some hits) :
    ∀ x ∈ hits, x ∈ store ∧ Backend.fieldExists x.2 "processing_timestamp" = false := by
  simp only [Backend.select, fetchQuery_query, Option.getD_some] at h
  cases hspec : Backend.sortSpec (Doc.get fetchQuery "sort") with
  | none => simp [hspec] at h
  | some spec =>
    cases hm : Backend.matching (JSON.obj
      [("bool", JSON.obj
          [("must", JSON.arr [JSON.obj [("term", JSON.obj [("processed", JSON.bool false)])]]),
           ("must_not", JSON.arr
              [JSON.obj [("exists", JSON.obj [("field", JSON.str "processing_timestamp")])]])])])
      store with
    | none => simp [hspec, hm] at h
    | some ms =>
      simp only [hspec, hm, Option.bind_eq_bind, Option.some_bind] at h
      split at h
      · simp at h
      · simp at h
        subst h
        intro x hx
        have hx' := Backend.mem_sortHits tc spec ms x (List.mem_of_mem_take hx)
        obtain ⟨hstore, hq⟩ := Backend.mem_matching _ store ms hm x hx'
        refine ⟨hstore, ?_⟩
        rw [Backend.queryMatches_fetchQuery] at hq
        cases hfe : Backend.fieldExists x.2 "processing_timestamp" with
        | false => rfl
        | true => simp [hfe] at hq

theorem Backend.fieldExists_mergeInto (store : Store) (id k t : String) (d : Doc)
    (hd : (id, d) ∈ Backend.mergeInto store id [(k, JSON.str t)]) :
    Backend.fieldExists d k = true := by
  simp only [Backend.mergeInto, List.mem_map] at hd
  obtain ⟨h, _, hh⟩ := hd
  by_cases hid : h.1 = id
  · simp only [hid, if_true, Prod.mk.injEq, true_and] at hh
    subst hh
    simp [Backend.merge, Backend.fieldExists, Doc.get_set_self]
  · simp only [hid, if_false] at hh
    exact absurd (congrArg Prod.fst hh) hid

/-- What `ESClient.Update` does on the reference store. -/
theorem esGateway_update (tc : TimeCodec) (s : Store) (index id : String) (fields : Doc) :
    (esGateway tc).Update s index id (JSON.obj fields) =
      if Backend.contains s id then (none, Backend.mergeInto s id fields)
      else (some (Error.errorf "elasticsearch error: "
        [("error", JSON.obj [("type", JSON.str "document_missing_exception")]),
         ("status", JSON.num 404)]), s) := by
  by_cases hc : Backend.contains s id = true
  · simp [esGateway, ESClient.toClient, ESClient.Update, Backend.client, Backend.update, Doc.get,
      asObject, hc, Response.IsError]
  · simp [esGateway, ESClient.toClient, ESClient.Update, Backend.client, Backend.update, Doc.get,
      asObject, hc, Response.IsError, decodeObject, Backend.errorBody]

/-- On the reference store `ESClient.Search` never returns a document. -/
theorem esGateway_search (tc : TimeCodec) (s : Store) (index : String) (query : Option Doc)
    (size : Int) (docs : List Doc)
    (h : (esGateway tc).Search s index query size = Except.ok docs) : docs = [] := by
  simp only [esGateway, ESClient.toClient, ESClient.Search, Backend.client, Backend.search] at h
  generalize Backend.select tc s _ _ = sel at h
  cases sel with
  | none => simp [Response.IsError, decodeObject, Backend.errorBody] at h
  | some hits =>
    simp [Response.IsError, decodeObject, Doc.get, asObject] at h
    exact h

/-- C2: on a store with partial-merge updates that are visible to the next search, reached
through `ESClient` or through the gateway contract, a successful `UpdateLogProcessStatus id`
followed by `FetchUnprocessedLogs`, for any batch size, returns no record with that id. -/
theorem claimed_log_is_not_fetched (tc : TimeCodec) (g : Client Store) (index : String)
    (now : Time) (s : Store) (id : String) (batchSize : Int) (logs : List UnProcessedLog)
    (r : UnProcessedLog)
    (hg : g = storeGateway tc ∨ g = esGateway tc)
    (hclaim : ((⟨g, index⟩ : ESCollector Store).UpdateLogProcessStatus tc now s id).1 = none)
    (hfetch : (⟨g, index⟩ : ESCollector Store).FetchUnprocessedLogs tc
      ((⟨g, index⟩ : ESCollector Store).UpdateLogProcessStatus tc now s id).2 batchSize
        = Except.ok logs)
    (hr : r ∈ logs) : r.ID ≠ id := by
  rcases hg with hg | hg
  · subst hg
    have hstore : ((⟨storeGateway tc, index⟩ : ESCollector Store).UpdateLogProcessStatus
        tc now s id).2 = Backend.mergeInto s id
          [("processing_timestamp", JSON.str (tc.format now))] := by
      by_cases hc : Backend.contains s id = true
      · simp [ESCollector.UpdateLogProcessStatus, storeGateway, hc]
      · simp [ESCollector.UpdateLogProcessStatus, storeGateway, hc] at hclaim
    rw [hstore] at hfetch
    simp only [ESCollector.FetchUnprocessedLogs, storeGateway, Option.getD_some] at hfetch
    cases hsel : Backend.select tc
        (Backend.mergeInto s id [("processing_timestamp", JSON.str (tc.format now))])
        (JSON.obj fetchQuery)
        (if normalizeBatchSize batchSize < 0 then 10 else normalizeBatchSize batchSize) with
    | none => simp [hsel] at hfetch
    | some hits =>
      simp only [hsel, Except.ok.injEq] at hfetch
      rw [foldl_fetchStep] at hfetch
      subst hfetch
      simp only [List.nil_append, List.mem_filterMap, List.mem_map] at hr
      obtain ⟨m, ⟨h, hh, hm⟩, hdec⟩ := hr
      cases hlog : decodeUnProcessedLog tc m with
      | none => simp [hlog] at hdec
      | some log =>
        simp only [hlog, Option.map_some', Option.some.injEq] at hdec
        subst hdec
        have hid : (assignID m log).ID = h.1 := by
          apply assignID_of_string
          rw [← hm]
          exact Doc.get_set_self _ _ _
        rw [hid]
        intro heq
        obtain ⟨hmem, hex⟩ := Backend.mem_select_fetchQuery tc _ _ hits hsel h hh
        obtain ⟨hi, hd⟩ := h
        have heq' : hi = id := heq
        subst heq'
        have := Backend.fieldExists_mergeInto s hi _ _ hd hmem
        rw [this] at hex
        exact Bool.noConfusion hex
  · subst hg
    simp only [ESCollector.FetchUnprocessedLogs] at hfetch
    cases hsearch : (esGateway tc).Search
        ((⟨esGateway tc, index⟩ : ESCollector Store).UpdateLogProcessStatus tc now s id).2
        index (some fetchQuery) (normalizeBatchSize batchSize) with
    | error err => simp [hsearch] at hfetch
    | ok docs =>
      have hdocs := esGateway_search tc _ _ _ _ docs hsearch
      subst hdocs
      simp [hsearch] at hfetch
      subst hfetch
      simp at hr

/-- C2 at the scenario store through the gateway contract: after A is claimed, a fetch of 10
returns the record of B only. -/
theorem claimed_log_is_not_fetched_witness :
    (storeCollector.UpdateLogProcessStatus exampleCodec ⟨30000000000⟩ scenarioStore "A").1 = none
      ∧ storeCollector.FetchUnprocessedLogs exampleCodec
          (storeCollector.UpdateLogProcessStatus exampleCodec ⟨30000000000⟩ scenarioStore "A").2
          10 = Except.ok [logB]
      ∧ logB.ID ≠ "A" :=
  ⟨rfl, rfl, claimed_log_is_not_fetched exampleCodec (storeGateway exampleCodec) "log-unprocess"
    ⟨30000000000⟩ scenarioStore "A" 10 [logB] logB (Or.inl rfl) rfl rfl
    (List.mem_singleton.mpr rfl)⟩
theorem Backend.merge_analysis_idempotent (d : Doc) (aid : String) :
    Backend.merge (Backend.merge d [("analysis_id", JSON.str aid), ("processed", JSON.str "true")])
        [("analysis_id", JSON.str aid), ("processed", JSON.str "true")] =
      Backend.merge d [("analysis_id", JSON.str aid), ("processed", JSON.str "true")] := by
  simp only [Backend.merge, List.foldl_cons, List.foldl_nil]
  have h1 : ((d.set "analysis_id" (JSON.str aid)).set "processed" (JSON.str "true")).get
      "analysis_id" = some (JSON.str aid) := by
    rw [Doc.get_set_ne _ _ _ _ (by decide)]
    exact Doc.get_set_self _ _ _
  rw [Doc.set_eq_self _ _ _ h1]
  exact Doc.set_eq_self _ _ _ (Doc.get_set_self _ _ _)

theorem Backend.mergeInto_analysis_idempotent (s : Store) (id aid : String) :
    Backend.mergeInto
        (Backend.mergeInto s id [("analysis_id", JSON.str aid), ("processed", JSON.str "true")])
        id [("analysis_id", JSON.str aid), ("processed", JSON.str "true")] =
      Backend.mergeInto s id [("analysis_id", JSON.str aid), ("processed", JSON.str "true")] := by
  simp only [Backend.mergeInto, List.map_map]
  apply List.map_congr_left
  intro h _
  by_cases hid : h.1 = id
  · simp [hid, Backend.merge_analysis_idempotent]
  · simp [hid]

theorem Backend.contains_mergeInto (s : Store) (id : String) (fields : Doc) :
    Backend.contains (Backend.mergeInto s id fields) id = Backend.contains s id := by
  induction s with
  | nil => rfl
  | cons h t ih =>
    simp only [Backend.contains, Backend.mergeInto, List.map_cons, List.any_cons] at ih ⊢
    rw [ih]
    by_cases hid : h.1 = id <;> simp [hid]

/-- C5: on a store with partial-merge updates reached through `ESClient`, for a record id present
in it, `UpdateLogAnalysisStatus id aid` called twice returns no error either time and the
store after the second call is the store after the first. -/
theorem analysis_status_idempotent (tc : TimeCodec) (index : String) (s : Store)
    (id aid : String) (hpresent : Backend.contains s id = true) :
    ((⟨esGateway tc, index⟩ : ESCollector Store).UpdateLogAnalysisStatus s id aid).1 = none
      ∧ ((⟨esGateway tc, index⟩ : ESCollector Store).UpdateLogAnalysisStatus
          ((⟨esGateway tc, index⟩ : ESCollector Store).UpdateLogAnalysisStatus s id aid).2
          id aid).1 = none
      ∧ ((⟨esGateway tc, index⟩ : ESCollector Store).UpdateLogAnalysisStatus
          ((⟨esGateway tc, index⟩ : ESCollector Store).UpdateLogAnalysisStatus s id aid).2
          id aid).2 =
        ((⟨esGateway tc, index⟩ : ESCollector Store).UpdateLogAnalysisStatus s id aid).2 := by
  have hfirst : (⟨esGateway tc, index⟩ : ESCollector Store).UpdateLogAnalysisStatus s id aid =
      (none, Backend.mergeInto s id
        [("analysis_id", JSON.str aid), ("processed", JSON.str "true")]) := by
    simp [ESCollector.UpdateLogAnalysisStatus, esGateway_update, hpresent]
  have hsecond : (⟨esGateway tc, index⟩ : ESCollector Store).UpdateLogAnalysisStatus
      (Backend.mergeInto s id [("analysis_id", JSON.str aid), ("processed", JSON.str "true")])
      id aid =
      (none, Backend.mergeInto s id
        [("analysis_id", JSON.str aid), ("processed", JSON.str "true")]) := by
    simp [ESCollector.UpdateLogAnalysisStatus, esGateway_update, Backend.contains_mergeInto,
      hpresent, Backend.mergeInto_analysis_idempotent]
  rw [hfirst, hsecond]
  exact ⟨rfl, rfl, rfl⟩

/-- C5 at the scenario store for record A and analysis `an1`. -/
theorem analysis_status_idempotent_witness :
    (esCollector.UpdateLogAnalysisStatus scenarioStore "A" "an1").1 = none
      ∧ (esCollector.UpdateLogAnalysisStatus
          (esCollector.UpdateLogAnalysisStatus scenarioStore "A" "an1").2 "A" "an1").1 = none
      ∧ (esCollector.UpdateLogAnalysisStatus
          (esCollector.UpdateLogAnalysisStatus scenarioStore "A" "an1").2 "A" "an1").2 =
        (esCollector.UpdateLogAnalysisStatus scenarioStore "A" "an1").2 :=
  analysis_status_idempotent exampleCodec "log-unprocess" scenarioStore "A" "an1" rfl

end LogAnalyzer
